import Mathlib

/-!
Verification of the dynamic-scheduling (Tomasulo-style) core and the gshare
branch predictor of this repository.  The phase functions `Core.issue`,
`Core.execute`, `Core.writeback`, `Core.commit` and the in-order pipeline's
`Core.regfile_write` are translated directly from the repository's core
sources; the container classes they manipulate (reorder buffer, reservation
stations, register alias table, common data bus, functional units), whose
class definitions are not part of the provided sources, are modelled from
the specification (spec.md sections 3 and 4).
-/

namespace TinyRV

/-- Execution flags of a decoded instruction, as used by the core sources
(`use_rs1`, `use_rs2`, `use_rd`, `is_load`, `is_exit`). -/
structure ExeFlags where
  use_rs1 : Bool
  use_rs2 : Bool
  use_rd : Bool
  is_load : Bool
  is_exit : Bool
  deriving DecidableEq, Repr

/-- Decoded instruction record: register identifiers, immediate, functional
unit category it targets, and the execution flags.  Immutable once issued. -/
structure Instr where
  flags : ExeFlags
  rs1 : Nat
  rs2 : Nat
  rd : Nat
  imm : Nat
  fuType : Nat
  deriving DecidableEq, Repr

/-- Default instruction, used as the out-of-range default of list lookups
(array accesses in the source are in range in practice). -/
def dInstr : Instr := ⟨⟨false, false, false, false, false⟩, 0, 0, 0, 0, 0⟩

/-- Modelled from the spec: a reorder-buffer entry holds the owning
instruction, a ready flag and a result value (valid only when ready). -/
structure ROBEntry where
  instr : Instr
  ready : Bool
  result : Nat
  deriving DecidableEq, Repr

/-- Default reorder-buffer entry used for out-of-range lookups. -/
def dROBEntry : ROBEntry := ⟨dInstr, false, 0⟩

/-- Modelled from the spec: the reorder buffer is a circular log over a
fixed-capacity array of slots, with a head cursor and an entry count. -/
structure ROB where
  cap : Nat
  head : Nat
  count : Nat
  slots : List ROBEntry
  deriving DecidableEq, Repr

/-- Modelled from the spec: the reorder buffer is full when its count has
reached its capacity (`ROB::full` in the sources' interface). -/
def ROB.full (rob : ROB) : Bool := rob.count == rob.cap

/-- Modelled from the spec: the reorder buffer is empty when no entry is
outstanding (`ROB::empty`). -/
def ROB.isEmpty (rob : ROB) : Bool := rob.count == 0

/-- Modelled from the spec: index of the oldest outstanding slot
(`ROB::head_index`). -/
def ROB.head_index (rob : ROB) : Nat := rob.head

/-- Modelled from the spec: read a reorder-buffer slot by index
(`ROB::get_entry`). -/
def ROB.get_entry (rob : ROB) (i : Nat) : ROBEntry := rob.slots.getD i dROBEntry

/-- Modelled from the spec: the slot index the allocator would use — the tail
of the circular log — or `none` when the buffer is full.  `ROB::allocate`
returns this index (-1 on failure in the sources' interface). -/
def ROB.findSlot (rob : ROB) : Option Nat :=
  if rob.count < rob.cap then some ((rob.head + rob.count) % rob.cap) else none

/-- Modelled from the spec: write a freshly allocated entry (ready = false)
at the given tail slot and count it. -/
def ROB.allocate_at (rob : ROB) (i : Nat) (instr : Instr) : ROB :=
  { rob with slots := rob.slots.set i ⟨instr, false, 0⟩, count := rob.count + 1 }

/-- Modelled from the spec: free the head slot, advancing the circular
buffer (`ROB::pop`). -/
def ROB.pop (rob : ROB) : ROB :=
  { rob with head := (rob.head + 1) % rob.cap, count := rob.count - 1 }

/-- Well-formedness of the circular reorder buffer: positive capacity, head
cursor in range, count within capacity, backing array of the right length. -/
def ROB.wf (rob : ROB) : Prop :=
  0 < rob.cap ∧ rob.head < rob.cap ∧ rob.count ≤ rob.cap ∧ rob.slots.length = rob.cap

instance (rob : ROB) : Decidable rob.wf := by
  unfold ROB.wf; infer_instance

/-- The outstanding entries of the reorder buffer, oldest first. -/
def ROB.toList (rob : ROB) : List ROBEntry :=
  (List.range rob.count).map (fun i => rob.slots.getD ((rob.head + i) % rob.cap) dROBEntry)

/-- Common-data-bus broadcast record: result value, destination
reorder-buffer slot, originating reservation-station slot. -/
structure CDBData where
  result : Nat
  rob_index : Nat
  rs_index : Nat
  deriving DecidableEq, Repr

/-- Modelled from the spec: mark a reorder-buffer slot ready with the
broadcast result (`ROB::update`, called by the writeback phase). -/
def ROB.update (rob : ROB) (d : CDBData) : ROB :=
  let e := rob.slots.getD d.rob_index dROBEntry
  { rob with slots := rob.slots.set d.rob_index { e with ready := true, result := d.result } }

/-- Modelled from the spec: a reservation-station entry: validity and running
flags, destination reorder-buffer slot, per-operand state (a resolved value
or a pending dependency naming the producing reservation-station slot, the
sources' -1 sentinel becoming `none`), a lock flag serializing memory
operations, and the owning instruction. -/
structure RSEntry where
  valid : Bool
  running : Bool
  rob_index : Nat
  rs1_rsid : Option Nat
  rs2_rsid : Option Nat
  rs1_data : Nat
  rs2_data : Nat
  lock : Bool
  instr : Instr
  deriving DecidableEq, Repr

/-- Default reservation-station entry used for out-of-range lookups. -/
def dRSEntry : RSEntry := ⟨false, false, 0, none, none, 0, 0, false, dInstr⟩

/-- Modelled from the spec: both operands resolved
(`RS::entry_t::operands_ready`). -/
def RSEntry.operands_ready (e : RSEntry) : Bool :=
  e.rs1_rsid.isNone && e.rs2_rsid.isNone

/-- Modelled from the spec: operand wakeup — a pending operand whose recorded
producer matches the broadcast's source reservation-station slot is resolved
to the broadcast value (`RS::entry_t::update_operands`). -/
def RSEntry.update_operands (e : RSEntry) (d : CDBData) : RSEntry :=
  let e1 := if e.rs1_rsid = some d.rs_index then
              { e with rs1_data := d.result, rs1_rsid := none } else e
  if e1.rs2_rsid = some d.rs_index then
    { e1 with rs2_data := d.result, rs2_rsid := none } else e1

/-- Modelled from the spec: the reservation-station set is full when every
slot is valid (`RS::full`). -/
def rsFull (rs : List RSEntry) : Bool := rs.all (fun e => e.valid)

/-- Modelled from the spec: the slot the reservation-station allocator would
use — the first free (invalid) slot in scan order — or `none` when the set is
full.  `RS::issue` returns this index (-1 on failure in the sources'
interface). -/
def rsFindFree : List RSEntry → Option Nat
  | [] => none
  | e :: es => if e.valid then (rsFindFree es).map (fun j => j + 1) else some 0

/-- Modelled from the spec: release a reservation-station slot, making it
free for future issue (`RS::release`). -/
def rsRelease (rs : List RSEntry) (i : Nat) : List RSEntry :=
  rs.set i { rs.getD i dRSEntry with valid := false }

/-- Modelled from the spec: a functional unit has busy/idle state, a latency
countdown, a completion flag, and the broadcast payload it was dispatched
with. -/
structure FU where
  busy : Bool
  done : Bool
  cycles_left : Nat
  result : Nat
  rob_index : Nat
  rs_index : Nat
  deriving DecidableEq, Repr

/-- Default functional unit (idle) used for out-of-range lookups. -/
def dFU : FU := ⟨false, false, 0, 0, 0, 0⟩

/-- Modelled from the spec: advance a busy unit's latency countdown; the
completion flag becomes true once the modeled latency has elapsed
(`FunctionalUnit::execute`). -/
def FU.step (fu : FU) : FU :=
  if fu.busy && !fu.done then
    if fu.cycles_left ≤ 1 then { fu with done := true, cycles_left := 0 }
    else { fu with cycles_left := fu.cycles_left - 1 }
  else fu

/-- Modelled from the spec: reset a unit to idle after its result has been
drained onto the bus (`FunctionalUnit::clear`). -/
def FU.clear (fu : FU) : FU := { fu with busy := false, done := false }

/-- The broadcast payload a completed unit places on the common data bus
(`FunctionalUnit::get_output`). -/
def FU.out (fu : FU) : CDBData := ⟨fu.result, fu.rob_index, fu.rs_index⟩

/-- Modelled from the spec: the arithmetic behavior of each opcode and each
unit's latency are external to the dynamic-scheduling core; they are
abstracted as parameters of the execute phase. -/
structure Sem where
  exec : Instr → Nat → Nat → Nat
  latency : Instr → Nat

/-- Modelled from the spec: dispatch a reservation-station entry to a
functional unit (`FunctionalUnit::issue`): the unit becomes busy with the
modeled latency, carrying the result payload for the eventual broadcast. -/
def FU.dispatch (sem : Sem) (fu : FU) (e : RSEntry) (i : Nat) : FU :=
  { fu with busy := true, done := false,
            cycles_left := sem.latency e.instr,
            result := sem.exec e.instr e.rs1_data e.rs2_data,
            rob_index := e.rob_index, rs_index := i }

/-- The whole core state: reorder buffer, reservation stations, register
alias table (`none` = register file authoritative), reverse producer index
(RST, indexed by reorder-buffer slot), architectural register file, common
data bus (single slot), functional-unit bank, issue queue, committed
counter and exit flag. -/
structure Core where
  rob : ROB
  rs : List RSEntry
  rat : List (Option Nat)
  rst : List Nat
  reg_file : List Nat
  cdb : Option CDBData
  fus : List FU
  iq : List Instr
  instrs_committed : Nat
  exited : Bool
  deriving DecidableEq, Repr

/-- Operand resolution of `Core::issue` (source lines 61-103): if the RAT
has no live mapping, read the register file; else if the mapped
reorder-buffer slot is ready, copy its result; else the operand is pending
on the reservation-station slot the RST lists for that reorder-buffer slot.
Returns (data, rsid) with rsid = `none` meaning resolved (the sources'
-1 sentinel). -/
def Core.resolveOperand (s : Core) (use : Bool) (r : Nat) : Nat × Option Nat :=
  if use then
    match s.rat.getD r none with
    | none => (s.reg_file.getD r 0, none)
    | some rob_index =>
      let rob_entry := s.rob.get_entry rob_index
      if rob_entry.ready then (rob_entry.result, none)
      else (0, some (s.rst.getD rob_index 0))
  else (0, none)

/-- The allocation-and-write tail of `Core::issue` (source lines 105-137),
with the two allocators' chosen slots (`ROB::allocate`, `RS::issue`) made
explicit arguments: `none` models the sources' negative return value.  On a
reorder-buffer failure the function returns with nothing modified; after a
successful reorder-buffer allocation the RAT is updated, then on a
reservation-station failure the function returns without touching the RST
or popping the issue queue. -/
def Core.issueGen (s : Core) (instr : Instr) (rest : List Instr)
    (rs1_data : Nat) (rs1_rsid : Option Nat) (rs2_data : Nat) (rs2_rsid : Option Nat)
    (robSlot : Option Nat) (rsSlot : Option Nat) : Core :=
  match robSlot with
  | none => s
  | some rob_idx =>
    let rob' := s.rob.allocate_at rob_idx instr
    let rat' := if instr.flags.use_rd then s.rat.set instr.rd (some rob_idx) else s.rat
    let s1 := { s with rob := rob', rat := rat' }
    match rsSlot with
    | none => s1
    | some rs_idx =>
      let entry : RSEntry :=
        ⟨true, false, rob_idx, rs1_rsid, rs2_rsid, rs1_data, rs2_data, false, instr⟩
      { s1 with rs := s1.rs.set rs_idx entry,
                rst := s1.rst.set rob_idx rs_idx,
                iq := rest }

/-- The issue phase, `Core::issue` (source lines 26-138): return if the
issue queue is empty; stall if the reservation stations or the reorder
buffer are full; resolve both source operands; allocate a reorder-buffer
slot, update the RAT for a destination register, allocate a reservation
station, record it in the RST and pop the issue queue. -/
def Core.issue (s : Core) : Core :=
  match s.iq with
  | [] => s
  | instr :: rest =>
    if rsFull s.rs || s.rob.full then s
    else
      let r1 := s.resolveOperand instr.flags.use_rs1 instr.rs1
      let r2 := s.resolveOperand instr.flags.use_rs2 instr.rs2
      s.issueGen instr rest r1.1 r1.2 r2.1 r2.2 s.rob.findSlot (rsFindFree s.rs)

/-- First functional unit, in scan order, whose completion flag is set. -/
def firstDoneIdx : List FU → Option Nat
  | [] => none
  | fu :: rest => if fu.done then some 0 else (firstDoneIdx rest).map (fun j => j + 1)

/-- The bus-drain scan of `Core::execute` (source lines 151-159): the first
unit in scan order that is done pushes its output and is cleared; the scan
then stops (the sources' `break`), every other unit is left untouched. -/
def drainFirstDone : List FU → List FU × Option CDBData
  | [] => ([], none)
  | fu :: rest =>
    if fu.done then (FU.clear fu :: rest, some fu.out)
    else
      let p := drainFirstDone rest
      (fu :: p.1, p.2)

/-- One iteration of the dispatch scan of `Core::execute` (source lines
166-180): a valid, not-running, operands-ready, unlocked entry whose
functional-unit category is idle is dispatched and marked running. -/
def dispatchStep (sem : Sem) (p : List RSEntry × List FU) (i : Nat) :
    List RSEntry × List FU :=
  let e := p.1.getD i dRSEntry
  if e.valid && !e.running && e.operands_ready && !e.lock then
    let ft := e.instr.fuType
    let fu := p.2.getD ft dFU
    if !fu.busy then
      (p.1.set i { e with running := true }, p.2.set ft (FU.dispatch sem fu e i))
    else p
  else p

/-- The execute phase, `Core::execute` (source lines 140-181): advance every
functional unit, drain the first completed one onto the common data bus,
then scan the reservation stations dispatching ready entries to idle
units. -/
def Core.execute (s : Core) (sem : Sem) : Core :=
  let fus1 := s.fus.map FU.step
  let p := drainFirstDone fus1
  let cdb' := match p.2 with
              | some d => some d
              | none => s.cdb
  let q := (List.range s.rs.length).foldl (dispatchStep sem) (s.rs, p.1)
  { s with fus := q.2, rs := q.1, cdb := cdb' }

/-- The writeback phase, `Core::writeback` (source lines 183-214): if the
bus is empty, no action; otherwise deliver the broadcast to every valid
reservation-station entry, then release the producing reservation-station
slot, mark the destination reorder-buffer slot ready, and clear the bus. -/
def Core.writeback (s : Core) : Core :=
  match s.cdb with
  | none => s
  | some d =>
    let rs1 := s.rs.map (fun e => if e.valid then e.update_operands d else e)
    let rs2 := rsRelease rs1 d.rs_index
    { s with rs := rs2, rob := s.rob.update d, cdb := none }

/-- The commit phase, `Core::commit` (source lines 216-262): if the reorder
buffer is empty, no action; inspect only the head slot; if not ready, no
action; if ready, write the architectural register file when the instruction
has a destination, clear the RAT mapping only when it still points at this
exact slot, pop the head slot, count the instruction, and record program
termination. -/
def Core.commit (s : Core) : Core :=
  if s.rob.isEmpty then s
  else
    let head_index := s.rob.head_index
    let rob_head := s.rob.get_entry head_index
    if rob_head.ready then
      let instr := rob_head.instr
      let s1 :=
        if instr.flags.use_rd then
          let rd := instr.rd
          let rf' := s.reg_file.set rd rob_head.result
          let rat' := if s.rat.getD rd none = some head_index
                      then s.rat.set rd none else s.rat
          { s with reg_file := rf', rat := rat' }
        else s
      { s1 with rob := s1.rob.pop,
                instrs_committed := s1.instrs_committed + 1,
                exited := s1.exited || instr.flags.is_exit }
    else s

/-- The in-order five-stage pipeline's register-file write,
`Core::regfile_write` (source): skips the write when the destination is
register 0 (x0 hardwired to zero). -/
def regfile_write (instr : Instr) (alu_result : Nat) (reg_file : List Nat) : List Nat :=
  if instr.flags.use_rd && instr.rd != 0 then reg_file.set instr.rd alu_result
  else reg_file

/-- The four phases of one core cycle. -/
inductive Phase
  | commitP
  | writebackP
  | executeP
  | issueP
  deriving DecidableEq, Repr

/-- Run one phase on the core state. -/
def stepPh (sem : Sem) (s : Core) : Phase → Core
  | .commitP => s.commit
  | .writebackP => s.writeback
  | .executeP => s.execute sem
  | .issueP => s.issue

/-- Run a sequence of phases. -/
def runPh (sem : Sem) (s : Core) : List Phase → Core
  | [] => s
  | p :: ps => runPh sem (stepPh sem s p) ps

/-- The instruction the commit phase would retire from this state, if any. -/
def commitOut (s : Core) : Option Instr :=
  if s.rob.isEmpty then none
  else if (s.rob.get_entry s.rob.head_index).ready
  then some (s.rob.get_entry s.rob.head_index).instr
  else none

/-- The instruction the issue phase would issue from this state, if any. -/
def issueOut (s : Core) : Option Instr :=
  match s.iq with
  | [] => none
  | instr :: _ => if rsFull s.rs || s.rob.full then none else some instr

/-- The instructions held by the reorder buffer, oldest first. -/
def robInstrs (s : Core) : List Instr := s.rob.toList.map (fun e => e.instr)

/-- Committed-instruction trace and issued-instruction trace of a phase
sequence, in order. -/
def traces (sem : Sem) (s : Core) : List Phase → List Instr × List Instr
  | [] => ([], [])
  | p :: ps =>
    let c := match p with
             | Phase.commitP => (commitOut s).toList
             | _ => []
    let i := match p with
             | Phase.issueP => (issueOut s).toList
             | _ => []
    let r := traces sem (stepPh sem s p) ps
    (c ++ r.1, i ++ r.2)

/-! ### The gshare branch predictors (Project 2, gshare.cpp) -/

/-- Branch-target-buffer entry (`BTB_entry_t` in gshare.h). -/
structure BTBEntry where
  valid : Bool
  tag : Nat
  target : Nat
  deriving DecidableEq, Repr

/-- Ceiling base-2 logarithm (`log2ceil` from the project's utility header,
not part of the provided sources). -/
def log2ceil (n : Nat) : Nat := Nat.clog 2 n

/-- GShare predictor state (gshare.h): branch target buffer, pattern history
table of 2-bit counters (stored in `uint8_t`), an 8-bit branch history
register, and the derived shifts and masks. -/
structure GShare where
  btb : List BTBEntry
  pht : List Nat
  bhr : Nat
  btb_shift : Nat
  btb_mask : Nat
  bhr_mask : Nat
  deriving DecidableEq, Repr

/-- The `GShare` constructor (gshare.cpp lines 26-34): every pattern-history
counter starts at 0; the 8-bit mask fields truncate as `uint8_t` does. -/
def mkGShare (BTB_size BHR_size : Nat) : GShare :=
  { btb := List.replicate BTB_size ⟨false, 0, 0⟩
  , pht := List.replicate (2 ^ BHR_size) 0
  , bhr := 0
  , btb_shift := log2ceil BTB_size
  , btb_mask := BTB_size - 1
  , bhr_mask := (2 ^ BHR_size - 1) % 256 }

/-- `GShare::update` (gshare.cpp lines 62-99): saturating 2-bit counter
update of the indexed pattern-history entry, branch-history-register shift,
and branch-target-buffer refill on a taken branch.  The `% 256` reductions
mirror the `uint8_t` stores. -/
def GShare.update (g : GShare) (PC next_PC : Nat) (taken : Bool) : GShare :=
  let pht_index := (((PC >>> 2) ^^^ g.bhr) &&& g.bhr_mask) % 256
  let pht' :=
    if taken then
      (if g.pht.getD pht_index 0 < 3
       then g.pht.set pht_index (g.pht.getD pht_index 0 + 1) else g.pht)
    else
      (if 0 < g.pht.getD pht_index 0
       then g.pht.set pht_index (g.pht.getD pht_index 0 - 1) else g.pht)
  let bhr' := (((g.bhr <<< 1) ||| (if taken then 1 else 0)) &&& g.bhr_mask) % 256
  let btb' :=
    if taken then
      let btb_index := (PC >>> 2) &&& g.btb_mask
      let tag := (PC >>> 2) >>> g.btb_shift
      g.btb.set btb_index ⟨true, tag, next_PC⟩
    else g.btb
  { g with pht := pht', bhr := bhr', btb := btb' }

/-- Apply a sequence of (PC, next_PC, taken) updates to a GShare state. -/
def GShare.run (g : GShare) : List (Nat × Nat × Bool) → GShare
  | [] => g
  | (pc, npc, t) :: us => (g.update pc npc t).run us

/-- GSharePlus predictor state (gshare.h): as GShare but with a 16-bit
branch history register and mask. -/
structure GSharePlus where
  btb : List BTBEntry
  pht : List Nat
  bhr : Nat
  btb_shift : Nat
  btb_mask : Nat
  bhr_mask : Nat
  deriving DecidableEq, Repr

/-- The `GSharePlus` constructor (gshare.cpp lines 103-111): every
pattern-history counter starts at 2; masks truncate as `uint16_t` does. -/
def mkGSharePlus (BTB_size BHR_size : Nat) : GSharePlus :=
  { btb := List.replicate BTB_size ⟨false, 0, 0⟩
  , pht := List.replicate (2 ^ BHR_size) 2
  , bhr := 0
  , btb_shift := log2ceil BTB_size
  , btb_mask := BTB_size - 1
  , bhr_mask := (2 ^ BHR_size - 1) % 65536 }

/-- `GSharePlus::update` (gshare.cpp lines 139-176): identical logic to
`GShare::update` with 16-bit history truncation. -/
def GSharePlus.update (g : GSharePlus) (PC next_PC : Nat) (taken : Bool) : GSharePlus :=
  let pht_index := (((PC >>> 2) ^^^ g.bhr) &&& g.bhr_mask) % 65536
  let pht' :=
    if taken then
      (if g.pht.getD pht_index 0 < 3
       then g.pht.set pht_index (g.pht.getD pht_index 0 + 1) else g.pht)
    else
      (if 0 < g.pht.getD pht_index 0
       then g.pht.set pht_index (g.pht.getD pht_index 0 - 1) else g.pht)
  let bhr' := (((g.bhr <<< 1) ||| (if taken then 1 else 0)) &&& g.bhr_mask) % 65536
  let btb' :=
    if taken then
      let btb_index := (PC >>> 2) &&& g.btb_mask
      let tag := (PC >>> 2) >>> g.btb_shift
      g.btb.set btb_index ⟨true, tag, next_PC⟩
    else g.btb
  { g with pht := pht', bhr := bhr', btb := btb' }

/-- Apply a sequence of (PC, next_PC, taken) updates to a GSharePlus
state. -/
def GSharePlus.run (g : GSharePlus) : List (Nat × Nat × Bool) → GSharePlus
  | [] => g
  | (pc, npc, t) :: us => (g.update pc npc t).run us

/-! ### Concrete states used as evaluation inputs -/

/-- Concrete opcode semantics used for evaluation: addition, unit latency. -/
def semW : Sem := ⟨fun _ a b => a + b, fun _ => 1⟩

/-- Concrete instruction: r1 := r2 + r3. -/
def iW1 : Instr := ⟨⟨true, true, true, false, false⟩, 2, 3, 1, 0, 0⟩

/-- Concrete instruction: r4 := r1 + r5, dependent on `iW1`. -/
def iW2 : Instr := ⟨⟨true, true, true, false, false⟩, 1, 5, 4, 0, 0⟩

/-- Concrete instruction writing register 0. -/
def iW0 : Instr := ⟨⟨false, false, true, false, false⟩, 0, 0, 0, 0, 0⟩

/-- A fresh 4-slot-ROB, 2-slot-RS core with two queued instructions. -/
def sW0 : Core :=
  { rob := ⟨4, 0, 0, List.replicate 4 dROBEntry⟩
  , rs := List.replicate 2 dRSEntry
  , rat := List.replicate 8 none
  , rst := List.replicate 4 0
  , reg_file := [0, 0, 10, 20, 0, 7, 0, 0]
  , cdb := none
  , fus := List.replicate 2 dFU
  , iq := [iW1, iW2]
  , instrs_committed := 0
  , exited := false }

/-- A phase sequence issuing, executing and committing both instructions of
`sW0`. -/
def psW : List Phase :=
  [Phase.issueP, Phase.issueP, Phase.executeP, Phase.executeP, Phase.writebackP,
   Phase.commitP, Phase.executeP, Phase.writebackP, Phase.commitP]

/-- A core whose two functional units hold simultaneously completing
results: unit 0 completes this cycle, unit 1 is already completed. -/
def sW3 : Core :=
  { sW0 with fus := [⟨true, false, 1, 5, 0, 0⟩, ⟨true, true, 0, 7, 1, 1⟩] }

/-- A concrete broadcast record: result 9 from reservation station 0 for
reorder-buffer slot 0. -/
def dW4 : CDBData := ⟨9, 0, 0⟩

/-- A core with the broadcast `dW4` pending on the bus from reservation
station 0 and a sibling entry waiting on that station's result. -/
def sW4 : Core :=
  { sW0 with
      cdb := some dW4
    , rs := [⟨true, true, 0, none, none, 10, 20, false, iW1⟩,
             ⟨true, false, 1, some 0, none, 0, 7, false, iW2⟩] }

/-- A core whose reorder-buffer head is ready to commit `iW1` with result
42, the alias table still naming the head slot for r1. -/
def sW5 : Core :=
  { sW0 with
      rob := ⟨4, 0, 1, [⟨iW1, true, 42⟩, dROBEntry, dROBEntry, dROBEntry]⟩
    , rat := (List.replicate 8 (none : Option Nat)).set 1 (some 0) }

/-- A core whose reservation stations are all occupied, with an instruction
queued. -/
def sW6 : Core :=
  { sW0 with rs := List.replicate 2 { dRSEntry with valid := true } }

/-- A core whose reorder-buffer head is ready to commit an instruction whose
destination is register 0. -/
def sW9 : Core :=
  { sW0 with rob := ⟨4, 0, 1, [⟨iW0, true, 99⟩, dROBEntry, dROBEntry, dROBEntry]⟩ }

/-! ### List helpers -/

theorem lgetD_set_ne {α : Type} (l : List α) (i j : Nat) (a d : α) (h : i ≠ j) :
    (l.set i a).getD j d = l.getD j d := by
  simp [List.getD_eq_getElem?_getD, List.getElem?_set_ne h]

theorem lgetD_set_self {α : Type} (l : List α) (i : Nat) (a d : α) (h : i < l.length) :
    (l.set i a).getD i d = a := by
  simp [List.getD_eq_getElem?_getD, List.getElem?_set_self h]

theorem lgetD_set_instr (rob : ROB) (d : CDBData) (i : Nat) :
    ((rob.update d).slots.getD i dROBEntry).instr = (rob.slots.getD i dROBEntry).instr := by
  unfold ROB.update
  dsimp only
  by_cases hij : d.rob_index = i
  · subst hij
    by_cases hlt : d.rob_index < rob.slots.length
    · rw [lgetD_set_self _ _ _ _ hlt]
    · rw [List.set_eq_of_length_le (Nat.le_of_not_lt hlt)]
  · rw [lgetD_set_ne _ _ _ _ _ hij]

/-! ### Reorder-buffer lemmas: the circular log behaves as a FIFO queue -/

theorem ROB.toList_pop (rob : ROB) (hwf : rob.wf) (h0 : 0 < rob.count) :
    rob.pop.toList = rob.toList.tail := by
  obtain ⟨hcap, hhead, hcount, hlen⟩ := hwf
  obtain ⟨n, hn⟩ : ∃ n, rob.count = n + 1 :=
    ⟨rob.count - 1, (Nat.succ_pred_eq_of_pos h0).symm⟩
  unfold ROB.toList ROB.pop
  simp only [hn, Nat.add_sub_cancel]
  rw [List.range_succ_eq_map]
  simp only [List.map_cons, List.map_map, List.tail_cons]
  apply List.map_congr_left
  intro a _
  simp only [Function.comp]
  have h1 : rob.head + 1 + a = rob.head + a.succ := by omega
  rw [Nat.mod_add_mod, h1]

theorem ROB.toList_allocate (rob : ROB) (instr : Instr) (hwf : rob.wf)
    (h : rob.count < rob.cap) :
    (rob.allocate_at ((rob.head + rob.count) % rob.cap) instr).toList
      = rob.toList ++ [⟨instr, false, 0⟩] := by
  obtain ⟨hcap, hhead, hcount, hlen⟩ := hwf
  unfold ROB.toList ROB.allocate_at
  simp only [List.range_succ, List.map_append, List.map_cons, List.map_nil]
  congr 1
  · apply List.map_congr_left
    intro i hi
    rw [List.mem_range] at hi
    apply lgetD_set_ne
    intro hEq
    have hmod : rob.count ≡ i [MOD rob.cap] :=
      Nat.ModEq.add_left_cancel' rob.head hEq
    have : rob.count % rob.cap = i % rob.cap := hmod
    rw [Nat.mod_eq_of_lt h, Nat.mod_eq_of_lt (Nat.lt_trans hi h)] at this
    omega
  · rw [lgetD_set_self]
    rw [hlen]
    exact Nat.mod_lt _ hcap

theorem ROB.toList_update_instr (rob : ROB) (d : CDBData) :
    (rob.update d).toList.map (fun e => e.instr) = rob.toList.map (fun e => e.instr) := by
  unfold ROB.toList
  rw [List.map_map, List.map_map]
  apply List.map_congr_left
  intro i _
  simp only [Function.comp]
  exact lgetD_set_instr rob d _

theorem ROB.toList_head (rob : ROB) (hwf : rob.wf) (h0 : 0 < rob.count) :
    rob.toList = rob.get_entry rob.head :: rob.toList.tail := by
  obtain ⟨hcap, hhead, hcount, hlen⟩ := hwf
  obtain ⟨n, hn⟩ : ∃ n, rob.count = n + 1 :=
    ⟨rob.count - 1, (Nat.succ_pred_eq_of_pos h0).symm⟩
  unfold ROB.toList ROB.get_entry
  simp only [hn]
  rw [List.range_succ_eq_map]
  simp only [List.map_cons, List.tail_cons]
  congr 2
  rw [Nat.add_zero, Nat.mod_eq_of_lt hhead]

/-! ### Reservation-station allocator lemmas -/

theorem rsFindFree_spec (rs : List RSEntry) (h : rsFull rs = false) :
    ∃ j, rsFindFree rs = some j ∧ j < rs.length := by
  induction rs with
  | nil => simp [rsFull] at h
  | cons e es ih =>
    by_cases hv : e.valid
    · have hes : rsFull es = false := by
        simp only [rsFull, List.all_cons, hv, Bool.true_and] at h
        exact h
      obtain ⟨j, hj, hlt⟩ := ih hes
      refine ⟨j + 1, ?_, ?_⟩
      · simp [rsFindFree, hv, hj]
      · simpa using Nat.succ_lt_succ hlt
    · refine ⟨0, ?_, ?_⟩
      · simp [rsFindFree, hv]
      · simp

theorem rsFindFree_lt (rs : List RSEntry) (j : Nat) (h : rsFindFree rs = some j) :
    j < rs.length := by
  induction rs generalizing j with
  | nil => simp [rsFindFree] at h
  | cons e es ih =>
    rw [rsFindFree] at h
    cases hv : e.valid with
    | true =>
      rw [hv] at h
      simp only [if_true] at h
      cases hres : rsFindFree es with
      | none => rw [hres] at h; simp at h
      | some k =>
        rw [hres] at h
        simp at h
        have := ih k hres
        simp only [List.length_cons]
        omega
    | false =>
      rw [hv] at h
      simp at h
      simp only [List.length_cons]
      omega

/-! ### Phase characterization lemmas -/

theorem commit_state (s : Core) :
    s.commit = if s.rob.isEmpty then s
      else if (s.rob.get_entry s.rob.head_index).ready then
        (let rob_head := s.rob.get_entry s.rob.head_index
         let s1 :=
           if rob_head.instr.flags.use_rd then
             { s with reg_file := s.reg_file.set rob_head.instr.rd rob_head.result,
                      rat := if s.rat.getD rob_head.instr.rd none = some s.rob.head_index
                             then s.rat.set rob_head.instr.rd none else s.rat }
           else s
         { s1 with rob := s1.rob.pop,
                   instrs_committed := s1.instrs_committed + 1,
                   exited := s1.exited || rob_head.instr.flags.is_exit })
      else s := rfl

theorem commit_rob (s : Core) :
    (s.commit).rob =
      if s.rob.isEmpty = false ∧ (s.rob.get_entry s.rob.head_index).ready = true
      then s.rob.pop else s.rob := by
  unfold Core.commit
  dsimp only
  cases he : s.rob.isEmpty with
  | true => simp
  | false =>
    cases hr : (s.rob.get_entry s.rob.head_index).ready with
    | true =>
      rw [if_neg (by simp), if_pos rfl]
      conv_rhs => rw [if_pos ⟨rfl, rfl⟩]
      cases h3 : (s.rob.get_entry s.rob.head_index).instr.flags.use_rd <;> simp [h3]
    | false =>
      rw [if_neg (by simp), if_neg (by simp), if_neg (by simp)]

theorem writeback_rob (s : Core) :
    (s.writeback).rob = match s.cdb with
      | none => s.rob
      | some d => s.rob.update d := by
  unfold Core.writeback
  cases s.cdb <;> rfl

theorem execute_rob (s : Core) (sem : Sem) : (s.execute sem).rob = s.rob := rfl

theorem issueGen_rob (s : Core) (instr : Instr) (rest : List Instr)
    (a : Nat) (b : Option Nat) (c : Nat) (d : Option Nat) (t : Nat) (rsSlot : Option Nat) :
    (s.issueGen instr rest a b c d (some t) rsSlot).rob = s.rob.allocate_at t instr := by
  unfold Core.issueGen
  cases rsSlot <;> rfl

/-! ### Reorder-buffer instruction trace: per-phase decomposition -/

theorem wf_pop (rob : ROB) (h : rob.wf) : rob.pop.wf := by
  obtain ⟨hcap, hhead, hcount, hlen⟩ := h
  refine ⟨hcap, Nat.mod_lt _ hcap, ?_, hlen⟩
  show rob.count - 1 ≤ rob.cap
  omega

theorem wf_allocate (rob : ROB) (t : Nat) (instr : Instr) (h : rob.wf)
    (hc : rob.count < rob.cap) : (rob.allocate_at t instr).wf := by
  obtain ⟨hcap, hhead, hcount, hlen⟩ := h
  refine ⟨hcap, hhead, ?_, ?_⟩
  · show rob.count + 1 ≤ rob.cap
    omega
  · show (rob.slots.set t ⟨instr, false, 0⟩).length = rob.cap
    rw [List.length_set]
    exact hlen

theorem wf_update (rob : ROB) (d : CDBData) (h : rob.wf) : (rob.update d).wf := by
  obtain ⟨hcap, hhead, hcount, hlen⟩ := h
  refine ⟨hcap, hhead, hcount, ?_⟩
  show ((rob.update d).slots).length = rob.cap
  unfold ROB.update
  rw [List.length_set]
  exact hlen

theorem commit_decomp (s : Core) (hwf : s.rob.wf) :
    robInstrs s = (commitOut s).toList ++ robInstrs s.commit := by
  unfold robInstrs commitOut
  rw [commit_rob]
  cases he : s.rob.isEmpty with
  | true => simp [he]
  | false =>
    cases hr : (s.rob.get_entry s.rob.head_index).ready with
    | true =>
      have hcount : 0 < s.rob.count := by
        unfold ROB.isEmpty at he
        simp at he
        omega
      rw [if_neg (by simp), if_pos rfl, if_pos ⟨rfl, rfl⟩]
      rw [ROB.toList_pop _ hwf hcount]
      conv_lhs => rw [ROB.toList_head _ hwf hcount]
      simp [ROB.head_index]
    | false =>
      rw [if_neg (by simp), if_neg (by simp), if_neg (by simp)]
      simp

theorem writeback_decomp (s : Core) : robInstrs s.writeback = robInstrs s := by
  unfold robInstrs
  rw [writeback_rob]
  cases s.cdb with
  | none => rfl
  | some d => exact ROB.toList_update_instr s.rob d

theorem execute_decomp (s : Core) (sem : Sem) : robInstrs (s.execute sem) = robInstrs s := rfl

theorem issue_decomp (s : Core) (hwf : s.rob.wf) :
    robInstrs s.issue = robInstrs s ++ (issueOut s).toList := by
  unfold Core.issue issueOut
  cases hq : s.iq with
  | nil => simp
  | cons instr rest =>
    dsimp only
    by_cases hfull : (rsFull s.rs || s.rob.full) = true
    · simp [hfull]
    · rw [if_neg hfull, if_neg hfull]
      simp only [Bool.or_eq_true, not_or, Bool.not_eq_true] at hfull
      have hle : s.rob.count ≤ s.rob.cap := hwf.2.2.1
      have hcount : s.rob.count < s.rob.cap := by
        have h1 := hfull.2
        unfold ROB.full at h1
        simp at h1
        omega
      have hfind : s.rob.findSlot = some ((s.rob.head + s.rob.count) % s.rob.cap) := by
        unfold ROB.findSlot
        rw [if_pos hcount]
      rw [hfind]
      unfold robInstrs
      rw [issueGen_rob, ROB.toList_allocate _ _ hwf hcount]
      simp

theorem wf_commit (s : Core) (h : s.rob.wf) : s.commit.rob.wf := by
  rw [commit_rob]
  by_cases hc : s.rob.isEmpty = false ∧ (s.rob.get_entry s.rob.head_index).ready = true
  · rw [if_pos hc]; exact wf_pop _ h
  · rw [if_neg hc]; exact h

theorem wf_writeback (s : Core) (h : s.rob.wf) : s.writeback.rob.wf := by
  rw [writeback_rob]
  cases s.cdb with
  | none => exact h
  | some d => exact wf_update _ d h

theorem wf_issue (s : Core) (h : s.rob.wf) : s.issue.rob.wf := by
  unfold Core.issue
  cases hq : s.iq with
  | nil => exact h
  | cons instr rest =>
    dsimp only
    by_cases hfull : (rsFull s.rs || s.rob.full) = true
    · simp only [hfull, if_true]; exact h
    · rw [if_neg hfull]
      simp only [Bool.or_eq_true, not_or, Bool.not_eq_true] at hfull
      have hle : s.rob.count ≤ s.rob.cap := h.2.2.1
      have hcount : s.rob.count < s.rob.cap := by
        have h1 := hfull.2
        unfold ROB.full at h1
        simp at h1
        omega
      have hfind : s.rob.findSlot = some ((s.rob.head + s.rob.count) % s.rob.cap) := by
        unfold ROB.findSlot
        rw [if_pos hcount]
      rw [hfind, issueGen_rob]
      exact wf_allocate _ _ _ h hcount

theorem wf_stepPh (sem : Sem) (s : Core) (p : Phase) (h : s.rob.wf) :
    (stepPh sem s p).rob.wf := by
  cases p with
  | commitP => exact wf_commit s h
  | writebackP => exact wf_writeback s h
  | executeP => rw [stepPh]; rw [show (s.execute sem).rob = s.rob from rfl] at *; exact h
  | issueP => exact wf_issue s h

/-! ### The global trace invariant -/

theorem traces_inv (sem : Sem) :
    ∀ (ps : List Phase) (s : Core), s.rob.wf →
      robInstrs s ++ (traces sem s ps).2 = (traces sem s ps).1 ++ robInstrs (runPh sem s ps) := by
  intro ps
  induction ps with
  | nil => intro s _; simp [traces, runPh]
  | cons p ps ih =>
    intro s hwf
    have ihs := ih (stepPh sem s p) (wf_stepPh sem s p hwf)
    cases p with
    | commitP =>
      simp only [stepPh] at ihs
      simp only [traces, runPh, stepPh, List.nil_append]
      rw [commit_decomp s hwf, List.append_assoc, ihs, List.append_assoc]
    | writebackP =>
      simp only [stepPh] at ihs
      simp only [traces, runPh, stepPh, List.nil_append]
      rw [← writeback_decomp s, ihs]
    | executeP =>
      simp only [stepPh] at ihs
      simp only [traces, runPh, stepPh, List.nil_append]
      rw [← execute_decomp s sem, ihs]
    | issueP =>
      simp only [stepPh] at ihs
      simp only [traces, runPh, stepPh, List.nil_append]
      rw [← List.append_assoc, ← issue_decomp s hwf, ihs]

/-! ### Common-data-bus drain and dispatch lemmas -/

theorem drainFirstDone_none (l : List FU) (h : firstDoneIdx l = none) :
    drainFirstDone l = (l, none) := by
  induction l with
  | nil => rfl
  | cons fu rest ih =>
    rw [firstDoneIdx] at h
    cases hd : fu.done with
    | true => rw [hd] at h; simp at h
    | false =>
      rw [hd] at h
      simp only [Bool.false_eq_true, if_false] at h
      cases hres : firstDoneIdx rest with
      | some k => rw [hres] at h; simp at h
      | none =>
        rw [drainFirstDone, hd]
        simp only [Bool.false_eq_true, if_false]
        rw [ih hres]

theorem drainFirstDone_some (l : List FU) (i : Nat) (h : firstDoneIdx l = some i) :
    (drainFirstDone l).2 = some ((l.getD i dFU).out)
    ∧ (∀ j, j ≠ i → (drainFirstDone l).1.getD j dFU = l.getD j dFU) := by
  induction l generalizing i with
  | nil => simp [firstDoneIdx] at h
  | cons fu rest ih =>
    rw [firstDoneIdx] at h
    cases hd : fu.done with
    | true =>
      rw [hd] at h
      simp only [if_true] at h
      have hi : i = 0 := by
        have := h
        simp at this
        omega
      subst hi
      rw [drainFirstDone, hd]
      simp only [if_true]
      constructor
      · simp [List.getD_cons_zero]
      · intro j hj
        cases j with
        | zero => exact absurd rfl hj
        | succ n => simp [List.getD_cons_succ]
    | false =>
      rw [hd] at h
      simp only [Bool.false_eq_true, if_false] at h
      cases hres : firstDoneIdx rest with
      | none => rw [hres] at h; simp at h
      | some k =>
        rw [hres] at h
        simp only [Option.map] at h
        have hi : i = k + 1 := by
          have := h
          simp at this
          omega
        subst hi
        obtain ⟨h1, h2⟩ := ih k hres
        rw [drainFirstDone, hd]
        simp only [Bool.false_eq_true, if_false]
        constructor
        · rw [List.getD_cons_succ]
          exact h1
        · intro j hj
          cases j with
          | zero => simp [List.getD_cons_zero]
          | succ n =>
            rw [List.getD_cons_succ, List.getD_cons_succ]
            exact h2 n (by omega)

theorem dispatch_fold_busy (sem : Sem) (ixs : List Nat) :
    ∀ (p : List RSEntry × List FU) (j : Nat), (p.2.getD j dFU).busy = true →
      ((ixs.foldl (dispatchStep sem) p).2).getD j dFU = p.2.getD j dFU := by
  induction ixs with
  | nil => intro p j _; rfl
  | cons i ixs ih =>
    intro p j h
    rw [List.foldl_cons]
    have hstep : ((dispatchStep sem p i).2).getD j dFU = p.2.getD j dFU := by
      unfold dispatchStep
      dsimp only
      split
      · split
        · rename_i hbusy
          apply lgetD_set_ne
          intro hEq
          rw [hEq] at hbusy
          rw [h] at hbusy
          simp at hbusy
        · rfl
      · rfl
    rw [ih (dispatchStep sem p i) j (by rw [hstep]; exact h), hstep]

theorem FU.step_done_busy (fu : FU) (h : fu.done = true → fu.busy = true) :
    (FU.step fu).done = true → (FU.step fu).busy = true := by
  unfold FU.step
  split
  · rename_i hc
    rw [Bool.and_eq_true] at hc
    split <;> intro _ <;> exact hc.1
  · exact h

theorem done_busy_getD (l : List FU) (hl : ∀ fu ∈ l, fu.done = true → fu.busy = true)
    (j : Nat) (hd : (l.getD j dFU).done = true) : (l.getD j dFU).busy = true := by
  by_cases hj : j < l.length
  · rw [List.getD_eq_getElem l dFU hj] at hd ⊢
    exact hl _ (List.getElem_mem hj) hd
  · rw [List.getD_eq_getElem?_getD, List.getElem?_eq_none (by omega)] at hd
    simp [dFU] at hd

/-! ### Writeback wakeup lemmas -/

theorem lgetD_map {α : Type} (l : List α) (g : α → α) (d : α) (hg : g d = d) (j : Nat) :
    (l.map g).getD j d = g (l.getD j d) := by
  conv_lhs => rw [← hg]
  exact List.getD_map l d g

theorem update_operands_no_ref (e : RSEntry) (d : CDBData) :
    (e.update_operands d).rs1_rsid ≠ some d.rs_index ∧
    (e.update_operands d).rs2_rsid ≠ some d.rs_index := by
  unfold RSEntry.update_operands
  by_cases h1 : e.rs1_rsid = some d.rs_index <;>
    by_cases h2 : e.rs2_rsid = some d.rs_index <;>
      simp [h1, h2]

/-! ### Pattern-history-table bound lemmas -/

theorem getD_le_three (pht : List Nat) (i : Nat) (h : ∀ c ∈ pht, c ≤ 3) :
    pht.getD i 0 ≤ 3 := by
  by_cases hi : i < pht.length
  · rw [List.getD_eq_getElem pht 0 hi]
    exact h _ (List.getElem_mem hi)
  · rw [List.getD_eq_getElem?_getD, List.getElem?_eq_none (by omega)]
    simp

theorem pht_update_bound (pht : List Nat) (i : Nat) (taken : Bool)
    (h : ∀ c ∈ pht, c ≤ 3) :
    ∀ c ∈ (if taken then
             (if pht.getD i 0 < 3 then pht.set i (pht.getD i 0 + 1) else pht)
           else
             (if 0 < pht.getD i 0 then pht.set i (pht.getD i 0 - 1) else pht)), c ≤ 3 := by
  cases taken with
  | true =>
    simp only [if_true]
    by_cases hlt : pht.getD i 0 < 3
    · rw [if_pos hlt]
      intro c hc
      rcases List.mem_or_eq_of_mem_set hc with h1 | h1
      · exact h c h1
      · omega
    · rw [if_neg hlt]
      exact h
  | false =>
    simp only [Bool.false_eq_true, if_false]
    by_cases hpos : 0 < pht.getD i 0
    · rw [if_pos hpos]
      intro c hc
      rcases List.mem_or_eq_of_mem_set hc with h1 | h1
      · exact h c h1
      · have := getD_le_three pht i h
        omega
    · rw [if_neg hpos]
      exact h

theorem GShare.update_bound (g : GShare) (pc npc : Nat) (t : Bool)
    (h : ∀ c ∈ g.pht, c ≤ 3) : ∀ c ∈ (g.update pc npc t).pht, c ≤ 3 := by
  unfold GShare.update
  dsimp only
  exact pht_update_bound g.pht _ t h

theorem GShare.run_bound (us : List (Nat × Nat × Bool)) :
    ∀ (g : GShare), (∀ c ∈ g.pht, c ≤ 3) → ∀ c ∈ (g.run us).pht, c ≤ 3 := by
  induction us with
  | nil => intro g h; exact h
  | cons u us ih =>
    intro g h
    obtain ⟨pc, npc, t⟩ := u
    exact ih _ (GShare.update_bound g pc npc t h)

theorem gsp_update_bound (g : GSharePlus) (pc npc : Nat) (t : Bool)
    (h : ∀ c ∈ g.pht, c ≤ 3) : ∀ c ∈ (g.update pc npc t).pht, c ≤ 3 := by
  unfold GSharePlus.update
  dsimp only
  exact pht_update_bound g.pht _ t h

theorem gsp_run_bound (us : List (Nat × Nat × Bool)) :
    ∀ (g : GSharePlus), (∀ c ∈ g.pht, c ≤ 3) → ∀ c ∈ (g.run us).pht, c ≤ 3 := by
  induction us with
  | nil => intro g h; exact h
  | cons u us ih =>
    intro g h
    obtain ⟨pc, npc, t⟩ := u
    exact ih _ (gsp_update_bound g pc npc t h)

/-! ### Claim theorems -/

/-- C1: for every sequence of issued instructions, instructions commit in
exactly the order they were issued (FIFO property of the reorder buffer),
regardless of functional-unit completion order: over any phase sequence
from a well-formed core with an empty reorder buffer, the issued trace
equals the committed trace followed by the still-in-flight reorder-buffer
contents in order, so the commit trace is an order-preserving prefix of the
issue trace, and commit only ever removes the oldest slot. -/
theorem C1_commit_order_eq_issue_order (sem : Sem) (s : Core) (ps : List Phase)
    (hwf : s.rob.wf) (h0 : robInstrs s = []) :
    (traces sem s ps).2 = (traces sem s ps).1 ++ robInstrs (runPh sem s ps) := by
  have h := traces_inv sem ps s hwf
  rwa [h0, List.nil_append] at h

/-- Witness for C1 at a concrete core state and phase sequence. -/
theorem C1_witness :
    (sW0.rob.wf ∧ robInstrs sW0 = [])
    ∧ (traces semW sW0 psW).2 = (traces semW sW0 psW).1 ++ robInstrs (runPh semW sW0 psW) :=
  ⟨⟨by decide, by decide⟩,
   C1_commit_order_eq_issue_order semW sW0 psW (by decide) (by decide)⟩

/-- C2 counterexample: the claim that a failed allocation after the passed
not-full precondition leaves no state modified is false for the
reservation-station failure path: at the concrete state `sW0`, with the
precondition check passed and the reservation-station allocator reporting
failure (the sources' negative return), the register-alias table has
already been modified by the aborted issue. -/
theorem C2_counterexample :
    (rsFull sW0.rs || sW0.rob.full) = false
    ∧ (sW0.issueGen iW1 [iW2] 0 none 0 none (some 0) none).rat ≠ sW0.rat := by
  decide

/-- C2 amended: a reorder-buffer allocation failure abandons the issue
cycle with no state modified at all; a reservation-station allocation
failure after a successful reorder-buffer allocation leaves the issue
queue, reverse producer index, reservation stations, register file, bus and
functional units untouched, but the reorder-buffer entry already allocated
and the register-alias-table update already made for the destination
register are retained, not rolled back. -/
theorem C2_issue_abort (s : Core) (instr : Instr) (rest : List Instr)
    (a : Nat) (b : Option Nat) (c : Nat) (d : Option Nat) :
    (∀ rsSlot, s.issueGen instr rest a b c d none rsSlot = s)
    ∧ (∀ t,
        (s.issueGen instr rest a b c d (some t) none).iq = s.iq
        ∧ (s.issueGen instr rest a b c d (some t) none).rst = s.rst
        ∧ (s.issueGen instr rest a b c d (some t) none).rs = s.rs
        ∧ (s.issueGen instr rest a b c d (some t) none).reg_file = s.reg_file
        ∧ (s.issueGen instr rest a b c d (some t) none).cdb = s.cdb
        ∧ (s.issueGen instr rest a b c d (some t) none).fus = s.fus
        ∧ (s.issueGen instr rest a b c d (some t) none).rob = s.rob.allocate_at t instr
        ∧ (s.issueGen instr rest a b c d (some t) none).rat
            = (if instr.flags.use_rd then s.rat.set instr.rd (some t) else s.rat)) := by
  constructor
  · intro rsSlot
    rfl
  · intro t
    exact ⟨rfl, rfl, rfl, rfl, rfl, rfl, rfl, rfl⟩

/-- C6: if the reservation-station set or the reorder buffer is full when
an instruction is queued for issue, the issue phase performs no action that
cycle: the whole core state, in particular the reorder buffer, reservation
stations, alias table, reverse producer index and the issue-queue head, is
unchanged. -/
theorem C6_issue_stall_noop (s : Core) (instr : Instr) (rest : List Instr)
    (hq : s.iq = instr :: rest)
    (hfull : (rsFull s.rs || s.rob.full) = true) :
    s.issue = s := by
  unfold Core.issue
  rw [hq]
  dsimp only
  rw [if_pos hfull]

/-- Witness for C6 at a concrete core with a fully occupied
reservation-station set. -/
theorem C6_witness :
    (sW6.iq = iW1 :: [iW2] ∧ (rsFull sW6.rs || sW6.rob.full) = true)
    ∧ sW6.issue = sW6 :=
  ⟨⟨by decide, by decide⟩, C6_issue_stall_noop sW6 iW1 [iW2] (by decide) (by decide)⟩

/-- C8: commit on an empty reorder buffer is a no-op; commit when the head
slot is not ready is a no-op (head-of-line blocking); committing a ready
head slot exactly once removes exactly that slot, the oldest, from the
buffer. -/
theorem C8_commit_head_discipline (s : Core) (hwf : s.rob.wf) :
    (s.rob.isEmpty = true → s.commit = s)
    ∧ (s.rob.isEmpty = false → (s.rob.get_entry s.rob.head_index).ready = false →
        s.commit = s)
    ∧ (s.rob.isEmpty = false → (s.rob.get_entry s.rob.head_index).ready = true →
        (s.commit).rob.toList = s.rob.toList.tail
        ∧ (s.commit).rob.count = s.rob.count - 1) := by
  refine ⟨?_, ?_, ?_⟩
  · intro he
    rw [commit_state]
    simp [he]
  · intro he hr
    rw [commit_state]
    simp [he, hr]
  · intro he hr
    have hcount : 0 < s.rob.count := by
      unfold ROB.isEmpty at he
      simp at he
      omega
    rw [commit_rob, if_pos ⟨he, hr⟩]
    exact ⟨ROB.toList_pop _ hwf hcount, rfl⟩

/-- Witness for C8 at a concrete core with a ready head entry. -/
theorem C8_witness :
    sW5.rob.wf
    ∧ ((sW5.commit).rob.toList = sW5.rob.toList.tail
        ∧ (sW5.commit).rob.count = sW5.rob.count - 1) :=
  ⟨by decide,
   (C8_commit_head_discipline sW5 (by decide)).2.2 (by decide) (by decide)⟩

/-- C10: starting from the initial GShare state (all pattern-history
counters 0) or the initial GSharePlus state (all counters 2), after every
sequence of update calls every pattern-history counter stays within 0..3
(the counters are naturals, so the lower bound is inherent; the update
increments only below 3 and decrements only above 0). -/
theorem C10_pht_saturation (btbSize bhrSize : Nat) (us : List (Nat × Nat × Bool)) :
    (∀ c ∈ ((mkGShare btbSize bhrSize).run us).pht, c ≤ 3)
    ∧ (∀ c ∈ ((mkGSharePlus btbSize bhrSize).run us).pht, c ≤ 3) := by
  constructor
  · apply GShare.run_bound
    intro c hc
    simp [mkGShare] at hc
    omega
  · apply gsp_run_bound
    intro c hc
    simp [mkGSharePlus] at hc
    omega

/-- Witness for C10 evaluating the bound on concrete predictors after a
concrete update sequence. -/
theorem C10_witness :
    ((0 : Nat) ∈ ((mkGShare 4 2).run [(8, 16, true)]).pht ∧ (0 : Nat) ≤ 3)
    ∧ ((2 : Nat) ∈ ((mkGSharePlus 4 2).run [(8, 16, true)]).pht ∧ (2 : Nat) ≤ 3) :=
  ⟨⟨by decide, (C10_pht_saturation 4 2 [(8, 16, true)]).1 0 (by decide)⟩,
   ⟨by decide, (C10_pht_saturation 4 2 [(8, 16, true)]).2 2 (by decide)⟩⟩

/-- C5: when the ready head slot commits an instruction with a destination
register, the result is written into the architectural register file at
that register, and the register-alias-table mapping for that register is
cleared exactly when it still points at the committing slot; when a younger
instruction has overwritten the mapping to a different slot, the mapping is
left untouched. -/
theorem C5_commit_rat_clear (s : Core)
    (he : s.rob.isEmpty = false)
    (hr : (s.rob.get_entry s.rob.head_index).ready = true)
    (hd : (s.rob.get_entry s.rob.head_index).instr.flags.use_rd = true)
    (hlen : (s.rob.get_entry s.rob.head_index).instr.rd < s.reg_file.length) :
    (s.commit).reg_file.getD (s.rob.get_entry s.rob.head_index).instr.rd 0
        = (s.rob.get_entry s.rob.head_index).result
    ∧ (s.rat.getD (s.rob.get_entry s.rob.head_index).instr.rd none = some s.rob.head_index →
        (s.commit).rat = s.rat.set (s.rob.get_entry s.rob.head_index).instr.rd none)
    ∧ (s.rat.getD (s.rob.get_entry s.rob.head_index).instr.rd none ≠ some s.rob.head_index →
        (s.commit).rat = s.rat) := by
  rw [commit_state]
  dsimp only
  rw [if_neg (by simp [he]), if_pos hr, if_pos hd]
  refine ⟨?_, ?_, ?_⟩
  · dsimp only
    exact lgetD_set_self _ _ _ _ hlen
  · intro hm
    dsimp only
    rw [if_pos hm]
  · intro hm
    dsimp only
    rw [if_neg hm]

/-- Witness for C5 at a concrete core whose alias table still names the
committing head slot. -/
theorem C5_witness :
    (sW5.rob.isEmpty = false
     ∧ (sW5.rob.get_entry sW5.rob.head_index).ready = true
     ∧ (sW5.rob.get_entry sW5.rob.head_index).instr.flags.use_rd = true
     ∧ (sW5.rob.get_entry sW5.rob.head_index).instr.rd < sW5.reg_file.length)
    ∧ ((sW5.commit).reg_file.getD (sW5.rob.get_entry sW5.rob.head_index).instr.rd 0
          = (sW5.rob.get_entry sW5.rob.head_index).result
       ∧ (sW5.rat.getD (sW5.rob.get_entry sW5.rob.head_index).instr.rd none
            = some sW5.rob.head_index →
          (sW5.commit).rat
            = sW5.rat.set (sW5.rob.get_entry sW5.rob.head_index).instr.rd none)
       ∧ (sW5.rat.getD (sW5.rob.get_entry sW5.rob.head_index).instr.rd none
            ≠ some sW5.rob.head_index →
          (sW5.commit).rat = sW5.rat)) :=
  ⟨⟨by decide, by decide, by decide, by decide⟩,
   C5_commit_rat_clear sW5 (by decide) (by decide) (by decide) (by decide)⟩

/-- C9: the out-of-order commit phase performs no x0-hardwired-to-zero
guard: a committing instruction with the destination flag set and
destination register 0 writes its result into architectural register 0,
whereas the in-order pipeline's regfile_write skips every write whose
destination is register 0. -/
theorem C9_commit_writes_reg0 (s : Core)
    (he : s.rob.isEmpty = false)
    (hr : (s.rob.get_entry s.rob.head_index).ready = true)
    (hd : (s.rob.get_entry s.rob.head_index).instr.flags.use_rd = true)
    (h0 : (s.rob.get_entry s.rob.head_index).instr.rd = 0)
    (hlen : 0 < s.reg_file.length) :
    (s.commit).reg_file.getD 0 0 = (s.rob.get_entry s.rob.head_index).result
    ∧ (∀ (i : Instr) (res : Nat) (l : List Nat), i.rd = 0 → regfile_write i res l = l) := by
  constructor
  · rw [commit_state]
    dsimp only
    rw [if_neg (by simp [he]), if_pos hr, if_pos hd, h0]
    dsimp only
    exact lgetD_set_self _ _ _ _ hlen
  · intro i res l h
    unfold regfile_write
    rw [h]
    simp

/-- Witness for C9 at a concrete core committing a write to register 0. -/
theorem C9_witness :
    (sW9.rob.isEmpty = false
     ∧ (sW9.rob.get_entry sW9.rob.head_index).ready = true
     ∧ (sW9.rob.get_entry sW9.rob.head_index).instr.flags.use_rd = true
     ∧ (sW9.rob.get_entry sW9.rob.head_index).instr.rd = 0
     ∧ 0 < sW9.reg_file.length)
    ∧ ((sW9.commit).reg_file.getD 0 0 = (sW9.rob.get_entry sW9.rob.head_index).result
       ∧ (∀ (i : Instr) (res : Nat) (l : List Nat), i.rd = 0 → regfile_write i res l = l)) :=
  ⟨⟨by decide, by decide, by decide, by decide, by decide⟩,
   C9_commit_writes_reg0 sW9 (by decide) (by decide) (by decide) (by decide) (by decide)⟩

/-- C4: within the writeback phase the broadcast is delivered to every
valid reservation-station entry before the producing slot is released: every
valid sibling receives the operand wakeup, the producing slot ends the
phase invalid (free), and afterwards no valid entry still holds a
pending-operand reference to the released slot — so the slot is never freed
while a pending reference to it remains. -/
theorem C4_release_after_wakeup (s : Core) (d : CDBData) (hcdb : s.cdb = some d) :
    (∀ j, j ≠ d.rs_index → (s.rs.getD j dRSEntry).valid = true →
        (s.writeback).rs.getD j dRSEntry = (s.rs.getD j dRSEntry).update_operands d)
    ∧ ((s.writeback).rs.getD d.rs_index dRSEntry).valid = false
    ∧ (∀ j, ((s.writeback).rs.getD j dRSEntry).valid = true →
        ((s.writeback).rs.getD j dRSEntry).rs1_rsid ≠ some d.rs_index
        ∧ ((s.writeback).rs.getD j dRSEntry).rs2_rsid ≠ some d.rs_index) := by
  have hgd : (if dRSEntry.valid then dRSEntry.update_operands d else dRSEntry) = dRSEntry := rfl
  unfold Core.writeback
  rw [hcdb]
  dsimp only
  unfold rsRelease
  refine ⟨?_, ?_, ?_⟩
  · intro j hj hv
    rw [lgetD_set_ne _ _ _ _ _ (Ne.symm hj),
        lgetD_map s.rs (fun e => if e.valid then e.update_operands d else e) dRSEntry hgd j]
    rw [if_pos hv]
  · by_cases hk : d.rs_index < s.rs.length
    · rw [lgetD_set_self _ _ _ _ (by rw [List.length_map]; exact hk)]
    · rw [List.set_eq_of_length_le (by rw [List.length_map]; omega)]
      rw [List.getD_eq_getElem?_getD, List.getElem?_eq_none (by rw [List.length_map]; omega)]
      rfl
  · intro j hv
    by_cases hjk : j = d.rs_index
    · subst hjk
      by_cases hk : d.rs_index < s.rs.length
      · rw [lgetD_set_self _ _ _ _ (by rw [List.length_map]; exact hk)] at hv
        simp at hv
      · rw [List.set_eq_of_length_le (by rw [List.length_map]; omega)] at hv
        rw [List.getD_eq_getElem?_getD, List.getElem?_eq_none (by rw [List.length_map]; omega)] at hv
        simp [dRSEntry] at hv
    · rw [lgetD_set_ne _ _ _ _ _ (Ne.symm hjk)] at hv ⊢
      rw [lgetD_map s.rs (fun e => if e.valid then e.update_operands d else e) dRSEntry hgd j]
        at hv ⊢
      cases horig : (s.rs.getD j dRSEntry).valid with
      | false =>
        rw [if_neg (by rw [horig]; simp)] at hv
        rw [horig] at hv
        simp at hv
      | true =>
        rw [if_pos rfl]
        exact update_operands_no_ref _ d

/-- Witness for C4 at a concrete core with a pending broadcast from
reservation station 0 and a sibling waiting on it. -/
theorem C4_witness :
    sW4.cdb = some dW4
    ∧ ((∀ j, j ≠ dW4.rs_index → (sW4.rs.getD j dRSEntry).valid = true →
          (sW4.writeback).rs.getD j dRSEntry = (sW4.rs.getD j dRSEntry).update_operands dW4)
       ∧ ((sW4.writeback).rs.getD dW4.rs_index dRSEntry).valid = false
       ∧ (∀ j, ((sW4.writeback).rs.getD j dRSEntry).valid = true →
            ((sW4.writeback).rs.getD j dRSEntry).rs1_rsid ≠ some dW4.rs_index
            ∧ ((sW4.writeback).rs.getD j dRSEntry).rs2_rsid ≠ some dW4.rs_index)) :=
  ⟨by decide, C4_release_after_wakeup sW4 dW4 (by decide)⟩

/-- C3: at most one result occupies the common data bus: after the execute
phase (run with a free bus, as the cycle order guarantees), the bus holds
exactly the output of the first completed functional unit in scan order, or
nothing if none completed; every other completed unit is left entirely
untouched — it keeps its completion flag and its full output — so its
result is not dropped and broadcasts on a strictly later cycle once the
bus is free again. -/
theorem C3_cdb_single_broadcast (s : Core) (sem : Sem)
    (hcdb : s.cdb = none)
    (hfus : ∀ fu ∈ s.fus, fu.done = true → fu.busy = true) :
    (s.execute sem).cdb
        = (firstDoneIdx (s.fus.map FU.step)).map
            (fun i => ((s.fus.map FU.step).getD i dFU).out)
    ∧ (∀ j, ((s.fus.map FU.step).getD j dFU).done = true →
        firstDoneIdx (s.fus.map FU.step) ≠ some j →
        (s.execute sem).fus.getD j dFU = (s.fus.map FU.step).getD j dFU) := by
  have hfus1 : ∀ fu ∈ s.fus.map FU.step, fu.done = true → fu.busy = true := by
    intro fu hm
    rw [List.mem_map] at hm
    obtain ⟨fu0, hm0, hrfl⟩ := hm
    subst hrfl
    exact FU.step_done_busy fu0 (hfus fu0 hm0)
  unfold Core.execute
  dsimp only
  cases hfd : firstDoneIdx (s.fus.map FU.step) with
  | none =>
    rw [drainFirstDone_none _ hfd]
    constructor
    · exact hcdb
    · intro j hdj _
      have hb := done_busy_getD _ hfus1 j hdj
      exact dispatch_fold_busy sem _ (s.rs, s.fus.map FU.step) j hb
  | some i =>
    obtain ⟨h1, h2⟩ := drainFirstDone_some _ i hfd
    constructor
    · rw [h1]
      rfl
    · intro j hdj hne
      have hji : j ≠ i := fun h => hne (by rw [h])
      have hb := done_busy_getD _ hfus1 j hdj
      have hdrain := h2 j hji
      have hfold := dispatch_fold_busy sem (List.range s.rs.length)
        (s.rs, (drainFirstDone (s.fus.map FU.step)).1) j (by rw [hdrain]; exact hb)
      rw [hfold, hdrain]

/-- Witness for C3 at a concrete core with two simultaneously completed
functional units. -/
theorem C3_witness :
    (sW3.cdb = none ∧ (∀ fu ∈ sW3.fus, fu.done = true → fu.busy = true))
    ∧ ((sW3.execute semW).cdb
         = (firstDoneIdx (sW3.fus.map FU.step)).map
             (fun i => ((sW3.fus.map FU.step).getD i dFU).out)
       ∧ (∀ j, ((sW3.fus.map FU.step).getD j dFU).done = true →
            firstDoneIdx (sW3.fus.map FU.step) ≠ some j →
            (sW3.execute semW).fus.getD j dFU = (sW3.fus.map FU.step).getD j dFU)) :=
  ⟨⟨by decide, by decide⟩, C3_cdb_single_broadcast sW3 semW (by decide) (by decide)⟩

/-- C7: for each source operand actually used by the issued instruction,
the reservation-station entry written by a successful issue follows the
three-way resolution rule: no live alias-table mapping means the value is
read from the register file and the operand is resolved; a mapping to a
ready reorder-buffer slot means that slot's result is copied and the
operand is resolved; a mapping to a not-ready slot means the operand is
pending on the reservation-station slot the reverse producer index lists
for that reorder-buffer slot. -/
theorem C7_operand_resolution (s : Core) (instr : Instr) (rest : List Instr) (j : Nat)
    (hwf : s.rob.wf)
    (hq : s.iq = instr :: rest)
    (hnf : (rsFull s.rs || s.rob.full) = false)
    (hj : rsFindFree s.rs = some j) :
    ((s.issue).rs.getD j dRSEntry).valid = true
    ∧ ((s.issue).rs.getD j dRSEntry).instr = instr
    ∧ (instr.flags.use_rs1 = true →
        (s.rat.getD instr.rs1 none = none →
           ((s.issue).rs.getD j dRSEntry).rs1_rsid = none
           ∧ ((s.issue).rs.getD j dRSEntry).rs1_data = s.reg_file.getD instr.rs1 0)
        ∧ (∀ m, s.rat.getD instr.rs1 none = some m →
            ((s.rob.get_entry m).ready = true →
               ((s.issue).rs.getD j dRSEntry).rs1_rsid = none
               ∧ ((s.issue).rs.getD j dRSEntry).rs1_data = (s.rob.get_entry m).result)
            ∧ ((s.rob.get_entry m).ready = false →
               ((s.issue).rs.getD j dRSEntry).rs1_rsid = some (s.rst.getD m 0))))
    ∧ (instr.flags.use_rs2 = true →
        (s.rat.getD instr.rs2 none = none →
           ((s.issue).rs.getD j dRSEntry).rs2_rsid = none
           ∧ ((s.issue).rs.getD j dRSEntry).rs2_data = s.reg_file.getD instr.rs2 0)
        ∧ (∀ m, s.rat.getD instr.rs2 none = some m →
            ((s.rob.get_entry m).ready = true →
               ((s.issue).rs.getD j dRSEntry).rs2_rsid = none
               ∧ ((s.issue).rs.getD j dRSEntry).rs2_data = (s.rob.get_entry m).result)
            ∧ ((s.rob.get_entry m).ready = false →
               ((s.issue).rs.getD j dRSEntry).rs2_rsid = some (s.rst.getD m 0)))) := by
  have hjlt : j < s.rs.length := rsFindFree_lt _ _ hj
  have hle : s.rob.count ≤ s.rob.cap := hwf.2.2.1
  have hcount : s.rob.count < s.rob.cap := by
    have h1 : s.rob.full = false := by
      cases hor : s.rob.full
      · rfl
      · rw [hor] at hnf
        simp at hnf
    unfold ROB.full at h1
    simp at h1
    omega
  have hfind : s.rob.findSlot = some ((s.rob.head + s.rob.count) % s.rob.cap) := by
    unfold ROB.findSlot
    rw [if_pos hcount]
  have hentry : (s.issue).rs.getD j dRSEntry =
      ⟨true, false, (s.rob.head + s.rob.count) % s.rob.cap,
       (s.resolveOperand instr.flags.use_rs1 instr.rs1).2,
       (s.resolveOperand instr.flags.use_rs2 instr.rs2).2,
       (s.resolveOperand instr.flags.use_rs1 instr.rs1).1,
       (s.resolveOperand instr.flags.use_rs2 instr.rs2).1,
       false, instr⟩ := by
    unfold Core.issue
    rw [hq]
    dsimp only
    rw [if_neg (by rw [hnf]; simp), hfind, hj]
    unfold Core.issueGen
    dsimp only
    exact lgetD_set_self _ _ _ _ hjlt
  rw [hentry]
  refine ⟨rfl, rfl, ?_, ?_⟩
  · intro huse
    constructor
    · intro hrat
      unfold Core.resolveOperand
      rw [huse, hrat]
      exact ⟨rfl, rfl⟩
    · intro m hrat
      constructor
      · intro hready
        unfold Core.resolveOperand
        rw [huse, hrat, if_pos rfl]
        dsimp only
        rw [if_pos hready]
        exact ⟨rfl, rfl⟩
      · intro hready
        unfold Core.resolveOperand
        rw [huse, hrat, if_pos rfl]
        dsimp only
        rw [if_neg (by rw [hready]; simp)]
  · intro huse
    constructor
    · intro hrat
      unfold Core.resolveOperand
      rw [huse, hrat]
      exact ⟨rfl, rfl⟩
    · intro m hrat
      constructor
      · intro hready
        unfold Core.resolveOperand
        rw [huse, hrat, if_pos rfl]
        dsimp only
        rw [if_pos hready]
        exact ⟨rfl, rfl⟩
      · intro hready
        unfold Core.resolveOperand
        rw [huse, hrat, if_pos rfl]
        dsimp only
        rw [if_neg (by rw [hready]; simp)]

/-- Witness for C7 at a concrete core issuing an instruction whose operands
resolve from the register file. -/
theorem C7_witness :
    (sW0.rob.wf ∧ sW0.iq = iW1 :: [iW2]
     ∧ (rsFull sW0.rs || sW0.rob.full) = false ∧ rsFindFree sW0.rs = some 0)
    ∧ (((sW0.issue).rs.getD 0 dRSEntry).valid = true
       ∧ ((sW0.issue).rs.getD 0 dRSEntry).instr = iW1
       ∧ (iW1.flags.use_rs1 = true →
           (sW0.rat.getD iW1.rs1 none = none →
              ((sW0.issue).rs.getD 0 dRSEntry).rs1_rsid = none
              ∧ ((sW0.issue).rs.getD 0 dRSEntry).rs1_data = sW0.reg_file.getD iW1.rs1 0)
           ∧ (∀ m, sW0.rat.getD iW1.rs1 none = some m →
               ((sW0.rob.get_entry m).ready = true →
                  ((sW0.issue).rs.getD 0 dRSEntry).rs1_rsid = none
                  ∧ ((sW0.issue).rs.getD 0 dRSEntry).rs1_data = (sW0.rob.get_entry m).result)
               ∧ ((sW0.rob.get_entry m).ready = false →
                  ((sW0.issue).rs.getD 0 dRSEntry).rs1_rsid = some (sW0.rst.getD m 0))))
       ∧ (iW1.flags.use_rs2 = true →
           (sW0.rat.getD iW1.rs2 none = none →
              ((sW0.issue).rs.getD 0 dRSEntry).rs2_rsid = none
              ∧ ((sW0.issue).rs.getD 0 dRSEntry).rs2_data = sW0.reg_file.getD iW1.rs2 0)
           ∧ (∀ m, sW0.rat.getD iW1.rs2 none = some m →
               ((sW0.rob.get_entry m).ready = true →
                  ((sW0.issue).rs.getD 0 dRSEntry).rs2_rsid = none
                  ∧ ((sW0.issue).rs.getD 0 dRSEntry).rs2_data = (sW0.rob.get_entry m).result)
               ∧ ((sW0.rob.get_entry m).ready = false →
                  ((sW0.issue).rs.getD 0 dRSEntry).rs2_rsid = some (sW0.rst.getD m 0))))) :=
  ⟨⟨by decide, by decide, by decide, by decide⟩,
   C7_operand_resolution sW0 iW1 [iW2] 0 (by decide) (by decide) (by decide) (by decide)⟩

end TinyRV
